import Mathlib

set_option autoImplicit false
set_option maxRecDepth 40000

/-!
Verification of the Python LSP MCP gateway (`rope_mcp`): a shallow embedding of
`src/rope_mcp/config.py` and `src/rope_mcp/server.py` with theorems about
backend routing, workspace containment, interpreter discovery, and text-edit
application.
-/

/-! ## Backend routing (`config.py`) -/

/-- The `Backend` enum of `config.py`: available backends for code analysis. -/
inductive Backend where
  | rope
  | pyright
deriving DecidableEq, Repr

/-- `SHARED_TOOLS`: tools that support both backends. -/
def SHARED_TOOLS : List String :=
  ["hover", "definition", "references", "completions", "symbols"]

/-- `ROPE_ONLY_TOOLS`: tools exclusive to the rope backend. -/
def ROPE_ONLY_TOOLS : List String := ["rename"]

/-- `PYRIGHT_ONLY_TOOLS`: tools exclusive to the pyright backend. -/
def PYRIGHT_ONLY_TOOLS : List String := ["diagnostics", "signature_help"]

/-- `Backend(value)` enum lookup by value: `none` models the `ValueError` raised
on an unknown value. -/
def Backend.ofString : String → Option Backend
  | "rope" => some Backend.rope
  | "pyright" => some Backend.pyright
  | _ => none

/-- Python's `str.lower()` (ASCII-relevant part): lowercase each character. -/
def pyLower (s : String) : String := String.mk (s.data.map Char.toLower)

/-- `ServerConfig`: default backend plus the per-tool backend override dict
(the dict is modeled as a function returning `none` for absent keys). -/
structure ServerConfig where
  default_backend : Backend
  tool_backends : String → Option Backend

/-- `ServerConfig.get_backend_for`: the backend to use for a specific tool. -/
def ServerConfig.get_backend_for (cfg : ServerConfig) (tool : String) : Backend :=
  if tool ∈ ROPE_ONLY_TOOLS then Backend.rope
  else if tool ∈ PYRIGHT_ONLY_TOOLS then Backend.pyright
  else
    match cfg.tool_backends tool with
    | some b => b
    | none => cfg.default_backend

/-- `ServerConfig.set_backend`: set the backend for a tool, or the default when
`tool` is `None`; a tool name outside `SHARED_TOOLS` is silently ignored. -/
def ServerConfig.set_backend (cfg : ServerConfig) (backend : Backend)
    (tool : Option String) : ServerConfig :=
  match tool with
  | none => { cfg with default_backend := backend }
  | some t =>
      if t ∈ SHARED_TOOLS then
        { cfg with tool_backends := fun x => if x = t then some backend else cfg.tool_backends x }
      else cfg

/-- `ServerConfig.set_all_backends`: set the default and clear every per-tool
override (`self.tool_backends.clear()`). -/
def ServerConfig.set_all_backends (cfg : ServerConfig) (backend : Backend) : ServerConfig :=
  { default_backend := backend, tool_backends := fun _ => none }

/-- `_get_effective_backend` of `server.py`: an explicit per-call backend string
is tried first (`if backend:` — empty string is falsy; an unknown value raises
`ValueError`, which is swallowed), then the stored configuration decides. -/
def getEffectiveBackend (tool : String) (backend : Option String)
    (cfg : ServerConfig) : Backend :=
  match backend with
  | some s =>
      if s = "" then cfg.get_backend_for tool
      else
        match Backend.ofString (pyLower s) with
        | some b => b
        | none => cfg.get_backend_for tool
  | none => cfg.get_backend_for tool

/-- Result envelope of the `set_backend` MCP tool of `server.py`. -/
inductive SetBackendResult where
  | invalidBackend (backend : String)
  | invalidTool (tool : String)
  | okTool (tool : String) (backend : String)
  | okAll (backend : String)
deriving DecidableEq, Repr

/-- The `set_backend` MCP tool of `server.py`: parses the backend name, and with
a truthy `tool` validates it against `SHARED_TOOLS` and stores the override;
with `tool` omitted (or falsy) it calls `config.set_all_backends`. -/
def serverSetBackend (cfg : ServerConfig) (backend : String)
    (tool : Option String) : ServerConfig × SetBackendResult :=
  match Backend.ofString (pyLower backend) with
  | none => (cfg, SetBackendResult.invalidBackend backend)
  | some b =>
      match tool with
      | some t =>
          if t ≠ "" then
            if t ∉ SHARED_TOOLS then (cfg, SetBackendResult.invalidTool t)
            else (cfg.set_backend b (some t), SetBackendResult.okTool t backend)
          else (cfg.set_all_backends b, SetBackendResult.okAll backend)
      | none => (cfg.set_all_backends b, SetBackendResult.okAll backend)

/-! ## POSIX path model

Paths are modeled as `List Char` (Python strings). The functions below embed
the pieces of the Python standard library the source relies on:
`posixpath.normpath` / `os.path.abspath` / `os.path.join`, and the string
rendering of `pathlib.PurePosixPath` (which drops `"."` and empty segments at
construction but keeps `".."`). -/

/-- `path.startswith('/')` / `PurePosixPath.is_absolute()` on POSIX. -/
def isAbsolute (p : List Char) : Bool := p.head? = some '/'

/-- Split a character list on `'/'` (like `str.split('/')`: always returns at
least one segment, and empty segments mark adjacent separators). -/
def splitSeg : List Char → List (List Char)
  | [] => [[]]
  | c :: rest =>
      if c = '/' then [] :: splitSeg rest
      else
        match splitSeg rest with
        | s :: ss => (c :: s) :: ss
        | [] => [[c]]

/-- `'/'.join(segments)`. -/
def joinSegs : List (List Char) → List Char
  | [] => []
  | [s] => s
  | s :: ss => s ++ '/' :: joinSegs ss

/-- The component loop of `posixpath.normpath`: skip `''` and `'.'`; a `'..'`
is kept when there is nothing to pop (at the root it is dropped instead),
otherwise it pops the previous component. `acc` is the reversed `new_comps`
stack. -/
def normComps (initAbs : Bool) : List (List Char) → List (List Char) → List (List Char)
  | acc, [] => acc.reverse
  | acc, comp :: rest =>
      if comp = [] ∨ comp = ['.'] then normComps initAbs acc rest
      else if comp ≠ ['.', '.'] ∨ (¬ initAbs ∧ acc = []) ∨ acc.head? = some ['.', '.'] then
        normComps initAbs (comp :: acc) rest
      else
        match acc with
        | [] => normComps initAbs [] rest
        | _ :: as => normComps initAbs as rest

/-- `initial_slashes` of `posixpath.normpath`: 1 for a leading `'/'`, upgraded
to 2 for exactly two leading slashes (the POSIX `'//'` special case). -/
def initSlashes (p : List Char) : Nat :=
  if ['/', '/'].isPrefixOf p ∧ ¬ ['/', '/', '/'].isPrefixOf p then 2
  else if ['/'].isPrefixOf p then 1
  else 0

/-- Final rendering of `posixpath.normpath`: the slashes, the joined
components, and `'.'` for an empty result. -/
def renderNorm (i : Nat) (nc : List (List Char)) : List Char :=
  let res := List.replicate i '/' ++ joinSegs nc
  if res = [] then ['.'] else res

/-- `posixpath.normpath`. -/
def posixNormpath (path : List Char) : List Char :=
  if path = [] then ['.']
  else renderNorm (initSlashes path) (normComps (initSlashes path != 0) [] (splitSeg path))

/-- `posixpath.join` restricted to two arguments. -/
def pjoinOS (a b : List Char) : List Char :=
  if isAbsolute b then b
  else if a = [] ∨ a.getLast? = some '/' then a ++ b
  else a ++ '/' :: b

/-- `os.path.abspath`: join onto the working directory when relative, then
normalize. -/
def abspath (cwd p : List Char) : List Char :=
  posixNormpath (if isAbsolute p then p else pjoinOS cwd p)

/-- `str(PurePosixPath(p))`: empty and `'.'` segments are dropped, `'..'` is
kept, a leading `'//'` (exactly two slashes) is preserved, and the empty path
renders as `'.'`. -/
def pathlibStr (p : List Char) : List Char :=
  renderNorm (initSlashes p) ((splitSeg p).filter (fun s => ¬ (s = [] ∨ s = ['.'])))

/-- The `/` operator of `pathlib.PurePosixPath`: an absolute right operand
replaces the left one. -/
def pathJoin (a b : List Char) : List Char :=
  if isAbsolute b then pathlibStr b else pathlibStr (a ++ '/' :: b)

/-! ## Workspace containment (`config.py`) -/

/-- A JSON/TOML value (the dynamic Python value a parse produces). -/
inductive JValue where
  | null
  | bool (b : Bool)
  | num (n : Int)
  | str (s : List Char)
  | arr (xs : List JValue)
  | obj (kvs : List (String × JValue))

/-- State of one configuration file as observed by `json.load` / `tomllib.load`:
missing, unreadable (`OSError`), syntactically malformed (decode error), or
parsed to a value. -/
inductive FileState where
  | absent
  | unreadable
  | malformed
  | parsed (v : JValue)

/-- The ambient process state the module reads: working directory, filesystem
probes (`Path.exists`, `os.access(…, X_OK)`), the parse outcome of candidate
config files, and `sys.executable`. -/
structure Fs where
  cwd : List Char
  pathExists : List Char → Bool
  executable : List Char → Bool
  jsonFiles : List Char → FileState
  tomlFiles : List Char → FileState
  sysExecutable : List Char

/-- Python truthiness of an `Optional[str]`: `None` and `""` are falsy. -/
def optStrTruthy : Option (List Char) → Bool
  | none => false
  | some s => !s.isEmpty

/-- The error dict built by `resolve_file_path` on a containment violation. -/
structure ErrInfo where
  error : List Char
  message : List Char
  current_workspace : List Char
  resolved_path : List Char
deriving DecidableEq, Repr

/-- The interpolated `message` of the Context Mismatch error dict. -/
def mismatchMessage (file_path abs_path w : List Char) : List Char :=
  "The file '".toList ++ file_path ++ "' resolves to '".toList ++ abs_path
    ++ "', which is outside the active workspace '".toList ++ w
    ++ "'.\n\nCurrent Logic:\n1. I only analyze files from the active project to ensure accuracy and save resources.\n2. You must explicitly switch the workspace if you want to work on a different project.\n\nAction Required:\nPlease call 'switch_workspace(path=\"...\")' with the new project root before retrying.".toList

/-- `resolve_file_path` of `config.py`: relative inputs are joined onto the
active workspace (or onto the working directory when none is active), the
result is normalized with `os.path.abspath`, and with an active workspace the
result must pass the `str.startswith` containment test. Returns the
`(absolute_path, error_dict)` pair. -/
def resolve_file_path (fs : Fs) (active_workspace : Option (List Char))
    (file_path : List Char) : Option (List Char) × Option ErrInfo :=
  let abs0 :=
    if ¬ isAbsolute file_path then
      if optStrTruthy active_workspace then pjoinOS (active_workspace.getD []) file_path
      else abspath fs.cwd file_path
    else pathlibStr file_path
  let abs_path := abspath fs.cwd abs0
  if optStrTruthy active_workspace
      ∧ ¬ (active_workspace.getD []).isPrefixOf abs_path then
    (none,
     some { error := "Context Mismatch".toList
            message := mismatchMessage file_path abs_path (active_workspace.getD [])
            current_workspace := active_workspace.getD []
            resolved_path := abs_path })
  else (some abs_path, none)

/-- `is_file_in_workspace` of `config.py`: `True` with no active workspace,
otherwise a raw `str.startswith` test of the absolutized path against the
workspace. -/
def is_file_in_workspace (fs : Fs) (active_workspace : Option (List Char))
    (file_path : List Char) : Bool :=
  if ¬ optStrTruthy active_workspace then true
  else (active_workspace.getD []).isPrefixOf (abspath fs.cwd file_path)

/-! ## Interpreter discovery (`config.py`)

Operations on dynamic parsed values follow Python semantics, including the
exceptions they raise; exceptions are modeled with `Except`. -/

/-- Python exceptions the discovery code can raise (beyond the caught
`OSError` / decode errors, which are folded into `FileState`). -/
inductive PyExn where
  | typeError
  | attributeError
  | keyError
deriving DecidableEq, Repr

/-- Python truthiness of a parsed value. -/
def JValue.truthy : JValue → Bool
  | JValue.null => false
  | JValue.bool b => b
  | JValue.num n => n ≠ 0
  | JValue.str s => !s.isEmpty
  | JValue.arr xs => !xs.isEmpty
  | JValue.obj kvs => !kvs.isEmpty

/-- `key in v`: dict key lookup, list membership, substring test on strings;
`TypeError` on non-containers. -/
def pyContains (key : String) : JValue → Except PyExn Bool
  | JValue.obj kvs => Except.ok (kvs.any (fun kv => kv.1 = key))
  | JValue.arr xs =>
      Except.ok (xs.any (fun x =>
        match x with
        | JValue.str s => s = key.toList
        | _ => false))
  | JValue.str s => Except.ok (decide (key.toList <:+: s))
  | _ => Except.error PyExn.typeError

/-- `v[key]` with a string key: later duplicate keys shadow earlier ones (as in
`json.load`); `TypeError` on a list or any non-dict. -/
def pySubscript (v : JValue) (key : String) : Except PyExn JValue :=
  match v with
  | JValue.obj kvs =>
      match kvs.reverse.find? (fun kv => kv.1 = key) with
      | some kv => Except.ok kv.2
      | none => Except.error PyExn.keyError
  | _ => Except.error PyExn.typeError

/-- `v.get(key, default)`: only dicts have `.get`; anything else raises
`AttributeError`. -/
def pyGet (v : JValue) (key : String) (default : JValue) : Except PyExn JValue :=
  match v with
  | JValue.obj kvs =>
      match kvs.reverse.find? (fun kv => kv.1 = key) with
      | some kv => Except.ok kv.2
      | none => Except.ok default
  | _ => Except.error PyExn.attributeError

/-- `Path(v)` / the `/` operator applied to a parsed value: only strings are
accepted, anything else raises `TypeError`. -/
def pathOfJValue : JValue → Except PyExn (List Char)
  | JValue.str s => Except.ok s
  | _ => Except.error PyExn.typeError

/-- `_extract_python_path_from_pyright` of `config.py`: a direct `pythonPath`
key (absolutized against the workspace, required to exist), else
`venvPath` + `venv` joined with `bin/python` (POSIX), required to exist. -/
def extract_python_path_from_pyright (fs : Fs) (config : JValue)
    (workspace_path : List Char) : Except PyExn (Option (List Char)) := do
  let hasDirect ← pyContains "pythonPath" config
  let direct : Option (List Char) ←
    if hasDirect then do
      let v ← pySubscript config "pythonPath"
      let s ← pathOfJValue v
      let python_path := if isAbsolute s then pathlibStr s else pathJoin workspace_path s
      if fs.pathExists python_path then pure (some python_path) else pure none
    else pure none
  match direct with
  | some p => pure (some p)
  | none => do
      let venv_path ← pyGet config "venvPath" JValue.null
      let venv_name ← pyGet config "venv" JValue.null
      if venv_path.truthy && venv_name.truthy then do
        let vs ← pathOfJValue venv_path
        let venv_dir := if isAbsolute vs then pathlibStr vs else pathJoin workspace_path vs
        let ns ← pathOfJValue venv_name
        let venv_dir := pathJoin venv_dir ns
        let python_exe := pathJoin (pathJoin venv_dir "bin".toList) "python".toList
        if fs.pathExists python_exe then pure (some python_exe) else pure none
      else pure none

/-- `find_pyright_python_path` of `config.py`: probe `pyrightconfig.json`, then
`[tool.pyright]` of `pyproject.toml`. Missing, unreadable, and malformed files
are treated as not found (`except (json.JSONDecodeError, OSError): pass` /
`except (tomllib.TOMLDecodeError, OSError): pass`); exceptions raised while
inspecting a successfully parsed value are not caught. -/
def find_pyright_python_path (fs : Fs) (workspace : List Char) :
    Except PyExn (Option (List Char)) :=
  let workspace_path := workspace
  let pyright_config := pathJoin workspace_path "pyrightconfig.json".toList
  let r1 : Except PyExn (Option (List Char)) :=
    match fs.jsonFiles pyright_config with
    | FileState.absent => Except.ok none
    | FileState.unreadable => Except.ok none
    | FileState.malformed => Except.ok none
    | FileState.parsed config => extract_python_path_from_pyright fs config workspace_path
  match r1 with
  | Except.error e => Except.error e
  | Except.ok r1v =>
    if optStrTruthy r1v then Except.ok r1v
    else
      let pyproject := pathJoin workspace_path "pyproject.toml".toList
      let r2 : Except PyExn (Option (List Char)) :=
        match fs.tomlFiles pyproject with
        | FileState.absent => Except.ok none
        | FileState.unreadable => Except.ok none
        | FileState.malformed => Except.ok none
        | FileState.parsed config =>
            match pyGet config "tool" (JValue.obj []) with
            | Except.error e => Except.error e
            | Except.ok tool =>
                match pyGet tool "pyright" (JValue.obj []) with
                | Except.error e => Except.error e
                | Except.ok pyright_cfg =>
                    extract_python_path_from_pyright fs pyright_cfg workspace_path
      match r2 with
      | Except.error e => Except.error e
      | Except.ok r2v => if optStrTruthy r2v then Except.ok r2v else Except.ok none

/-- `find_venv_python_path` of `config.py`: the conventional `.venv`, `venv`,
`env` directories under the workspace root, in that order (POSIX interpreter
sub-path). -/
def find_venv_python_path (fs : Fs) (workspace : List Char) : Option (List Char) :=
  [".venv", "venv", "env"].findSome? fun d =>
    let python_exe :=
      pathJoin (pathJoin (pathJoin workspace d.toList) "bin".toList) "python".toList
    if fs.pathExists python_exe then some python_exe else none

/-- The module-level interpreter bindings: `_python_paths` (per-workspace dict)
and `_global_python_path`. -/
structure InterpState where
  pythonPaths : List Char → Option (List Char)
  globalPythonPath : Option (List Char)

/-- `get_python_path_for_workspace` of `config.py`: manual per-workspace
binding, global override (truthy check), Pyright config, conventional venv,
then `sys.executable`. -/
def get_python_path_for_workspace (fs : Fs) (st : InterpState)
    (workspace : List Char) : Except PyExn (List Char) :=
  let workspace := abspath fs.cwd workspace
  match st.pythonPaths workspace with
  | some p => Except.ok p
  | none =>
      if optStrTruthy st.globalPythonPath then Except.ok (st.globalPythonPath.getD [])
      else
        match find_pyright_python_path fs workspace with
        | Except.error e => Except.error e
        | Except.ok pyright_path =>
            if optStrTruthy pyright_path then Except.ok (pyright_path.getD [])
            else
              let venv_path := find_venv_python_path fs workspace
              if optStrTruthy venv_path then Except.ok (venv_path.getD [])
              else Except.ok fs.sysExecutable

/-- Result dict of `set_python_path`. -/
inductive SetPyResult where
  | failure (error : List Char)
  | successWorkspace (message python_path workspace : List Char)
  | successGlobal (message python_path : List Char)
deriving DecidableEq, Repr

/-- `set_python_path` of `config.py`: reject a nonexistent path, then a
non-executable one, leaving the state untouched; on success store under the
absolutized workspace (truthy check) or as the global override. -/
def set_python_path (fs : Fs) (st : InterpState) (python_path : List Char)
    (workspace : Option (List Char)) : InterpState × SetPyResult :=
  if ¬ fs.pathExists (pathlibStr python_path) then
    (st, SetPyResult.failure ("Python path does not exist: ".toList ++ python_path))
  else if ¬ fs.executable python_path then
    (st, SetPyResult.failure ("Python path is not executable: ".toList ++ python_path))
  else if optStrTruthy workspace then
    let w := abspath fs.cwd (workspace.getD [])
    ({ st with pythonPaths := fun x => if x = w then some python_path else st.pythonPaths x },
     SetPyResult.successWorkspace ("Python path set for workspace: ".toList ++ w) python_path w)
  else
    ({ st with globalPythonPath := some python_path },
     SetPyResult.successGlobal "Global Python path set".toList python_path)

/-! ## Text-edit application (`server.py`) -/

/-- An LSP position: 0-based line and character. -/
structure Position where
  line : Nat
  char : Nat
deriving DecidableEq, Repr

/-- One LSP `TextEdit` of a `WorkspaceEdit`: a start/end range and the
replacement text. -/
structure TextEdit where
  startPos : Position
  endPos : Position
  newText : List Char
deriving DecidableEq, Repr

/-- Modelled from the spec: the rope client's `position_to_offset` helper is
not under `src/`; per §4.4 it converts a (line, character) position into a
character offset into the content, here with the 1-based line/column arguments
the server passes (`line + 1`, `character + 1`). Lines are separated by
newline characters. -/
def position_to_offset : List Char → Nat → Nat → Nat
  | _, 0, col => col - 1
  | _, 1, col => col - 1
  | [], _ + 2, col => col - 1
  | c :: rest, line + 2, col =>
      if c = '\n' then 1 + position_to_offset rest (line + 1) col
      else 1 + position_to_offset rest (line + 2) col

/-- Python tuple comparison on `(line, character)` pairs. -/
def tupLe : Nat × Nat → Nat × Nat → Bool :=
  fun a b => a.1 < b.1 || (a.1 = b.1 && a.2 ≤ b.2)

/-- The sort key of `_apply_workspace_edit`:
`(e["range"]["start"]["line"], e["range"]["start"]["character"])`. -/
def posKey (e : TextEdit) : Nat × Nat := (e.startPos.line, e.startPos.char)

/-- The end position of an edit as a comparison key. -/
def endKey (e : TextEdit) : Nat × Nat := (e.endPos.line, e.endPos.char)

/-- `list.sort(key=…, reverse=True)` ordering: descending by start position,
stable. -/
def descLe (e1 e2 : TextEdit) : Bool := tupLe (posKey e2) (posKey e1)

/-- The per-file body of `_apply_workspace_edit` of `server.py`: sort the
file's edits by start position descending, then substitute each range in that
order, converting positions to offsets against the current content. -/
def apply_text_edits (content : List Char) (edits : List TextEdit) : List Char :=
  (edits.mergeSort descLe).foldl
    (fun content e =>
      let start_offset := position_to_offset content (e.startPos.line + 1) (e.startPos.char + 1)
      let end_offset := position_to_offset content (e.endPos.line + 1) (e.endPos.char + 1)
      content.take start_offset ++ e.newText ++ content.drop end_offset)
    content

/-- Non-overlapping edits targeting one file: pairwise, the two ranges are
disjoint and the start positions differ. -/
def NonOverlapping (edits : List TextEdit) : Prop :=
  edits.Pairwise (fun e1 e2 =>
    posKey e1 ≠ posKey e2 ∧ (tupLe (endKey e1) (posKey e2) ∨ tupLe (endKey e2) (posKey e1)))

/-! ## Concrete fixtures used by witnesses and counterexamples -/

deriving instance DecidableEq for Except

/-- A process state in which nothing exists and no config file is present. -/
def fsDemo : Fs :=
  { cwd := "/".toList, pathExists := fun _ => false, executable := fun _ => false,
    jsonFiles := fun _ => FileState.absent, tomlFiles := fun _ => FileState.absent,
    sysExecutable := "/usr/local/bin/python3".toList }

/-- A process state in which every path exists and is executable. -/
def fsExec : Fs :=
  { fsDemo with pathExists := fun _ => true, executable := fun _ => true }

/-- A process state with a path that exists but is not executable. -/
def fsNoExec : Fs :=
  { fsDemo with pathExists := fun _ => true, executable := fun _ => false }

/-- The interpreter-discovery scenario of the spec: `/proj` has a
`pyrightconfig.json` naming `venvPath "."` and `venv "myenv"`,
`/proj/myenv/bin/python` exists, and no conventional venv directory exists. -/
def fsScenario : Fs :=
  { cwd := "/".toList,
    pathExists := fun p => p = "/proj/myenv/bin/python".toList,
    executable := fun _ => false,
    jsonFiles := fun p =>
      if p = "/proj/pyrightconfig.json".toList then
        FileState.parsed (JValue.obj
          [("venvPath", JValue.str ".".toList), ("venv", JValue.str "myenv".toList)])
      else FileState.absent,
    tomlFiles := fun _ => FileState.absent,
    sysExecutable := "/usr/local/bin/python3".toList }

/-- A syntactically well-formed `pyrightconfig.json` of unexpected shape:
`pythonPath` holds a number. -/
def fsBadShape : Fs :=
  { fsDemo with
    jsonFiles := fun p =>
      if p = "/w/pyrightconfig.json".toList then
        FileState.parsed (JValue.obj [("pythonPath", JValue.num 123)])
      else FileState.absent }

/-- Empty interpreter bindings. -/
def st0 : InterpState := { pythonPaths := fun _ => none, globalPythonPath := none }

/-- The default server configuration (`rope`, no overrides). -/
def cfg0 : ServerConfig := { default_backend := Backend.rope, tool_backends := fun _ => none }

/-- A configuration with a stored per-tool override for `hover`. -/
def cfgHover : ServerConfig :=
  { default_backend := Backend.rope,
    tool_backends := fun t => if t = "hover" then some Backend.pyright else none }

/-- The spec's round-trip edit on line 0: replace characters 0-5 with `LINE1`. -/
def editA : TextEdit := { startPos := ⟨0, 0⟩, endPos := ⟨0, 5⟩, newText := "LINE1".toList }

/-- The spec's round-trip edit on line 1: replace characters 0-5 with `LINE2`. -/
def editB : TextEdit := { startPos := ⟨1, 0⟩, endPos := ⟨1, 5⟩, newText := "LINE2".toList }

/-- An adversarial configuration: every preference points at pyright. -/
def cfgAllPyright : ServerConfig :=
  { default_backend := Backend.pyright, tool_backends := fun _ => some Backend.pyright }

/-- A config file that did not parse to a value: missing, unreadable, or
syntactically malformed. -/
def NotParsed (s : FileState) : Prop :=
  s = FileState.absent ∨ s = FileState.unreadable ∨ s = FileState.malformed

/-- A path component that survives normalization untouched: nonempty, not
`'.'`, not `'..'`, and free of separators. -/
def GoodSeg (s : List Char) : Prop :=
  s ≠ [] ∧ s ≠ ['.'] ∧ s ≠ ['.', '.'] ∧ '/' ∉ s

/-! ## Helper lemmas: backend routing -/

theorem get_backend_for_rope_pinned {t : String} (ht : t ∈ ROPE_ONLY_TOOLS)
    (cfg : ServerConfig) : cfg.get_backend_for t = Backend.rope := by
  unfold ServerConfig.get_backend_for
  rw [if_pos ht]

theorem get_backend_for_pyright_pinned {t : String} (ht : t ∈ PYRIGHT_ONLY_TOOLS)
    (cfg : ServerConfig) : cfg.get_backend_for t = Backend.pyright := by
  have h1 : t ∉ ROPE_ONLY_TOOLS := by fin_cases ht <;> decide
  unfold ServerConfig.get_backend_for
  rw [if_neg h1, if_pos ht]

/-! ## Claim theorems: backend routing (C2, C7, C8, C10) -/

/-- C8: after `set_all_backends B`, the effective backend with no explicit
per-call override is `B` for every shared tool, even one with a prior
override: the default is set to `B` and every per-tool override is cleared. -/
theorem c8_set_all_backends (cfg : ServerConfig) (b : Backend) (t : String)
    (ht : t ∈ SHARED_TOOLS) :
    getEffectiveBackend t none (cfg.set_all_backends b) = b
    ∧ (cfg.set_all_backends b).default_backend = b
    ∧ (cfg.set_all_backends b).tool_backends = fun _ => none := by
  refine ⟨?_, rfl, rfl⟩
  fin_cases ht <;> rfl

/-- Witness for C8 at the shared tool `hover` with a prior override. -/
theorem c8_witness :
    "hover" ∈ SHARED_TOOLS
    ∧ getEffectiveBackend "hover" none (cfgHover.set_all_backends Backend.pyright)
        = Backend.pyright :=
  ⟨by decide, (c8_set_all_backends cfgHover Backend.pyright "hover" (by decide)).1⟩

/-- C10: an explicit per-call backend string that does not name a known
backend (after lowercasing) is silently ignored: the result equals the one
computed with no explicit backend at all, and nothing is raised. -/
theorem c10_unknown_explicit_ignored (cfg : ServerConfig) (t s : String)
    (h : Backend.ofString (pyLower s) = none) :
    getEffectiveBackend t (some s) cfg = getEffectiveBackend t none cfg := by
  unfold getEffectiveBackend
  by_cases hs : s = ""
  · simp [hs]
  · simp [hs, h]

/-- Witness for C10 at the unknown backend name `Jedi`. -/
theorem c10_witness :
    Backend.ofString (pyLower "Jedi") = none
    ∧ getEffectiveBackend "hover" (some "Jedi") cfgHover
        = getEffectiveBackend "hover" none cfgHover :=
  ⟨by decide, c10_unknown_explicit_ignored cfgHover "hover" "Jedi" (by decide)⟩

/-- C2 counterexample: for the rope-pinned tool `rename`, an explicit
per-call `"pyright"` argument is honoured by `_get_effective_backend`: the
exclusivity pin is not evaluated before the explicit override. -/
theorem c2_counterexample :
    getEffectiveBackend "rename" (some "pyright") cfg0 = Backend.pyright
    ∧ ¬ getEffectiveBackend "rename" (some "pyright") cfg0 = Backend.rope := by
  constructor <;> decide

/-- C2 amended: a pinned tool's effective backend equals its pinned backend
for every stored preference state whenever the explicit per-call argument is
absent or fails to name a known backend (hence it is invariant under
`set_backend` and `set_all_backends`); but an explicit argument naming a
known backend is evaluated before the exclusivity check and wins. -/
theorem c2_pinned_tools (cfg : ServerConfig) (t : String) :
    (t ∈ ROPE_ONLY_TOOLS → getEffectiveBackend t none cfg = Backend.rope)
    ∧ (t ∈ PYRIGHT_ONLY_TOOLS → getEffectiveBackend t none cfg = Backend.pyright)
    ∧ (∀ s, Backend.ofString (pyLower s) = none →
        (t ∈ ROPE_ONLY_TOOLS → getEffectiveBackend t (some s) cfg = Backend.rope)
        ∧ (t ∈ PYRIGHT_ONLY_TOOLS → getEffectiveBackend t (some s) cfg = Backend.pyright))
    ∧ (∀ s b, Backend.ofString (pyLower s) = some b →
        getEffectiveBackend t (some s) cfg = b)
    ∧ (∀ b topt, (t ∈ ROPE_ONLY_TOOLS ∨ t ∈ PYRIGHT_ONLY_TOOLS) →
        getEffectiveBackend t none (cfg.set_backend b topt) = getEffectiveBackend t none cfg)
    ∧ (∀ b, (t ∈ ROPE_ONLY_TOOLS ∨ t ∈ PYRIGHT_ONLY_TOOLS) →
        getEffectiveBackend t none (cfg.set_all_backends b) = getEffectiveBackend t none cfg) := by
  have hnone : ∀ (c : ServerConfig), getEffectiveBackend t none c = c.get_backend_for t :=
    fun _ => rfl
  have hsome : ∀ (c : ServerConfig) (s : String), Backend.ofString (pyLower s) = none →
      getEffectiveBackend t (some s) c = c.get_backend_for t := by
    intro c s h
    unfold getEffectiveBackend
    by_cases hs : s = ""
    · simp [hs]
    · simp [hs, h]
  refine ⟨?_, ?_, ?_, ?_, ?_, ?_⟩
  · intro ht; rw [hnone]; exact get_backend_for_rope_pinned ht cfg
  · intro ht; rw [hnone]; exact get_backend_for_pyright_pinned ht cfg
  · intro s h
    exact ⟨fun ht => by rw [hsome cfg s h]; exact get_backend_for_rope_pinned ht cfg,
           fun ht => by rw [hsome cfg s h]; exact get_backend_for_pyright_pinned ht cfg⟩
  · intro s b h
    unfold getEffectiveBackend
    by_cases hs : s = ""
    · have h0 : Backend.ofString (pyLower "") = none := by decide
      rw [hs, h0] at h
      cases h
    · simp [hs, h]
  · intro b topt ht
    rcases ht with ht | ht
    · rw [hnone, hnone, get_backend_for_rope_pinned ht, get_backend_for_rope_pinned ht]
    · rw [hnone, hnone, get_backend_for_pyright_pinned ht, get_backend_for_pyright_pinned ht]
  · intro b ht
    rcases ht with ht | ht
    · rw [hnone, hnone, get_backend_for_rope_pinned ht, get_backend_for_rope_pinned ht]
    · rw [hnone, hnone, get_backend_for_pyright_pinned ht, get_backend_for_pyright_pinned ht]

/-- Witness for C2 (amended) at `rename` with an adversarial stored state. -/
theorem c2_witness :
    "rename" ∈ ROPE_ONLY_TOOLS
    ∧ getEffectiveBackend "rename" none cfgAllPyright = Backend.rope :=
  ⟨by decide, (c2_pinned_tools cfgAllPyright "rename").1 (by decide)⟩

/-- C7 counterexample: the exposed `set_backend` tool with the tool argument
omitted clears a stored per-tool override instead of leaving it unchanged. -/
theorem c7_counterexample :
    (serverSetBackend cfgHover "rope" none).1.tool_backends "hover" = none
    ∧ cfgHover.tool_backends "hover" = some Backend.pyright := by
  constructor <;> decide

/-- C7 amended: the configuration-level `set_backend` with `tool = None` sets
only the default and leaves the override map untouched, but the exposed
`set_backend` tool routes an omitted tool argument to `set_all_backends`,
which sets the default and clears every per-tool override. -/
theorem c7_set_backend_levels :
    (∀ (cfg : ServerConfig) (b : Backend),
        cfg.set_backend b none
          = { default_backend := b, tool_backends := cfg.tool_backends })
    ∧ (∀ (cfg : ServerConfig) (s : String) (b : Backend),
        Backend.ofString (pyLower s) = some b →
        serverSetBackend cfg s none = (cfg.set_all_backends b, SetBackendResult.okAll s)) := by
  constructor
  · intro cfg b; rfl
  · intro cfg s b h
    unfold serverSetBackend
    rw [h]

/-- Witness for C7 (amended) at the stored-override configuration. -/
theorem c7_witness :
    serverSetBackend cfgHover "rope" none
      = (cfgHover.set_all_backends Backend.rope, SetBackendResult.okAll "rope") :=
  c7_set_backend_levels.2 cfgHover "rope" Backend.rope (by decide)

/-! ## Claim theorems: workspace containment and interpreter setter (C1, C6) -/

/-- C1: evaluation at the failing input. With active workspace `/work`, the
sibling path `/work2/a.py` — which is not a descendant of `/work` — is
accepted by `resolve_file_path` with no `ContextMismatch`, because the
containment test is a raw `str.startswith` prefix check. -/
theorem c1_sibling_prefix_accepted :
    resolve_file_path fsDemo (some "/work".toList) "/work2/a.py".toList
      = (some "/work2/a.py".toList, none)
    ∧ is_file_in_workspace fsDemo (some "/work".toList) "/work2/a.py".toList = true := by
  constructor <;> decide

/-- C6: `set_python_path` rejects a nonexistent path (`PathNotFound` shape)
and an existing non-executable path (`NotExecutable` shape), in both cases
leaving the stored bindings exactly as they were; on success it stores the
path under the absolutized workspace key, or as the global override when no
workspace is given, and returns the stored value with the key used. -/
theorem c6_set_python_path (fs : Fs) (st : InterpState) (path : List Char)
    (ws : Option (List Char)) :
    (fs.pathExists (pathlibStr path) = false →
        set_python_path fs st path ws
          = (st, SetPyResult.failure ("Python path does not exist: ".toList ++ path)))
    ∧ (fs.pathExists (pathlibStr path) = true → fs.executable path = false →
        set_python_path fs st path ws
          = (st, SetPyResult.failure ("Python path is not executable: ".toList ++ path)))
    ∧ (∀ w, fs.pathExists (pathlibStr path) = true → fs.executable path = true →
        ws = some w → w ≠ [] →
        (set_python_path fs st path ws).2
            = SetPyResult.successWorkspace
                ("Python path set for workspace: ".toList ++ abspath fs.cwd w) path
                (abspath fs.cwd w)
          ∧ (set_python_path fs st path ws).1.pythonPaths (abspath fs.cwd w) = some path
          ∧ (set_python_path fs st path ws).1.globalPythonPath = st.globalPythonPath
          ∧ ∀ x, x ≠ abspath fs.cwd w →
              (set_python_path fs st path ws).1.pythonPaths x = st.pythonPaths x)
    ∧ (fs.pathExists (pathlibStr path) = true → fs.executable path = true → ws = none →
        (set_python_path fs st path ws).2
            = SetPyResult.successGlobal "Global Python path set".toList path
          ∧ (set_python_path fs st path ws).1.globalPythonPath = some path
          ∧ (set_python_path fs st path ws).1.pythonPaths = st.pythonPaths) := by
  refine ⟨?_, ?_, ?_, ?_⟩
  · intro h
    simp [set_python_path, h]
  · intro h1 h2
    simp [set_python_path, h1, h2]
  · intro w h1 h2 hws hw
    subst hws
    have hw' : w.isEmpty = false := by
      cases w with
      | nil => exact absurd rfl hw
      | cons a as => rfl
    refine ⟨?_, ?_, ?_, ?_⟩
    · simp [set_python_path, h1, h2, optStrTruthy, hw']
    · simp [set_python_path, h1, h2, optStrTruthy, hw']
    · simp [set_python_path, h1, h2, optStrTruthy, hw']
    · intro x hx
      simp [set_python_path, h1, h2, optStrTruthy, hw', hx]
  · intro h1 h2 hws
    subst hws
    refine ⟨?_, ?_, ?_⟩ <;> simp [set_python_path, h1, h2, optStrTruthy]

/-- Witness for C6: a successful per-workspace store. -/
theorem c6_witness :
    (set_python_path fsExec st0 "/usr/bin/python3".toList (some "/proj".toList)).2
        = SetPyResult.successWorkspace
            ("Python path set for workspace: ".toList ++ abspath fsExec.cwd "/proj".toList)
            "/usr/bin/python3".toList (abspath fsExec.cwd "/proj".toList)
      ∧ (set_python_path fsExec st0 "/usr/bin/python3".toList
            (some "/proj".toList)).1.pythonPaths (abspath fsExec.cwd "/proj".toList)
        = some "/usr/bin/python3".toList
      ∧ (set_python_path fsExec st0 "/usr/bin/python3".toList
            (some "/proj".toList)).1.globalPythonPath = st0.globalPythonPath
      ∧ ∀ x, x ≠ abspath fsExec.cwd "/proj".toList →
          (set_python_path fsExec st0 "/usr/bin/python3".toList
              (some "/proj".toList)).1.pythonPaths x = st0.pythonPaths x :=
  (c6_set_python_path fsExec st0 "/usr/bin/python3".toList (some "/proj".toList)).2.2.1
    "/proj".toList rfl rfl rfl (by decide)


/-! ## Helper lemmas: stable-sort uniqueness -/

theorem tupLe_total' (a b : Nat × Nat) : (tupLe a b || tupLe b a) = true := by
  simp only [tupLe, Bool.or_eq_true, Bool.and_eq_true, decide_eq_true_eq]
  omega

theorem tupLe_trans' (a b c : Nat × Nat) (h1 : tupLe a b = true) (h2 : tupLe b c = true) :
    tupLe a c = true := by
  simp only [tupLe, Bool.or_eq_true, Bool.and_eq_true, decide_eq_true_eq] at h1 h2 ⊢
  omega

theorem tupLe_antisymm' (a b : Nat × Nat) (h1 : tupLe a b = true) (h2 : tupLe b a = true) :
    a = b := by
  simp only [tupLe, Bool.or_eq_true, Bool.and_eq_true, decide_eq_true_eq] at h1 h2
  obtain ⟨x, y⟩ := a
  obtain ⟨z, w⟩ := b
  simp only [Prod.mk.injEq]
  omega

/-- A sorted permutation is unique when the order is antisymmetric on the
elements of the list. -/
theorem sorted_perm_unique {α : Type} {le : α → α → Bool} :
    ∀ {l₁ l₂ : List α}, l₁.Perm l₂ →
      l₁.Pairwise (fun a b => le a b = true) →
      l₂.Pairwise (fun a b => le a b = true) →
      (∀ x ∈ l₁, ∀ y ∈ l₁, le x y = true → le y x = true → x = y) →
      l₁ = l₂ := by
  intro l₁
  induction l₁ with
  | nil =>
    intro l₂ hp _ _ _
    exact hp.nil_eq
  | cons a t ih =>
    intro l₂ hp hs₁ hs₂ hanti
    cases l₂ with
    | nil => exact absurd hp.eq_nil (by simp)
    | cons b t₂ =>
      have hab : a = b := by
        by_cases hq : a = b
        · exact hq
        · have ha2 : a ∈ b :: t₂ := hp.subset (List.mem_cons_self a t)
          have hb1 : b ∈ a :: t := hp.symm.subset (List.mem_cons_self b t₂)
          have ha2' : a ∈ t₂ := by
            rcases List.mem_cons.mp ha2 with h | h
            · exact absurd h hq
            · exact h
          have hb1' : b ∈ t := by
            rcases List.mem_cons.mp hb1 with h | h
            · exact absurd h.symm hq
            · exact h
          have h1 : le a b = true := List.rel_of_pairwise_cons hs₁ hb1'
          have h2 : le b a = true := List.rel_of_pairwise_cons hs₂ ha2'
          exact hanti a (List.mem_cons_self a t) b (List.mem_cons_of_mem a hb1') h1 h2
      subst hab
      have hp' : t.Perm t₂ := hp.cons_inv
      rw [ih hp' hs₁.of_cons hs₂.of_cons
        (fun x hx y hy => hanti x (List.mem_cons_of_mem a hx) y (List.mem_cons_of_mem a hy))]

/-- Distinct start keys make an edit list key-injective. -/
theorem pairwise_posKey_inj {l : List TextEdit}
    (h : l.Pairwise (fun a b => posKey a ≠ posKey b)) :
    ∀ x ∈ l, ∀ y ∈ l, posKey x = posKey y → x = y := by
  induction l with
  | nil => intro x hx; cases hx
  | cons a t ih =>
    intro x hx y hy hxy
    rcases List.mem_cons.mp hx with rfl | hx'
    · rcases List.mem_cons.mp hy with rfl | hy'
      · rfl
      · exact absurd hxy (List.rel_of_pairwise_cons h hy')
    · rcases List.mem_cons.mp hy with rfl | hy'
      · exact absurd hxy.symm (List.rel_of_pairwise_cons h hx')
      · exact ih h.of_cons x hx' y hy' hxy

/-- Two permutations of one edit set with pairwise-distinct start positions
sort to the same list. -/
theorem mergeSort_eq_of_perm {l₁ l₂ : List TextEdit} (hp : l₁.Perm l₂)
    (hd : l₁.Pairwise (fun a b => posKey a ≠ posKey b)) :
    l₁.mergeSort descLe = l₂.mergeSort descLe := by
  have htrans : ∀ a b c : TextEdit,
      descLe a b = true → descLe b c = true → descLe a c = true :=
    fun a b c h1 h2 => tupLe_trans' _ _ _ h2 h1
  have htotal : ∀ a b : TextEdit, (descLe a b || descLe b a) = true :=
    fun a b => tupLe_total' (posKey b) (posKey a)
  apply sorted_perm_unique
    ((l₁.mergeSort_perm descLe).trans (hp.trans (l₂.mergeSort_perm descLe).symm))
    (List.sorted_mergeSort htrans htotal l₁)
    (List.sorted_mergeSort htrans htotal l₂)
  intro x hx y hy h1 h2
  exact pairwise_posKey_inj hd x ((l₁.mergeSort_perm descLe).mem_iff.mp hx)
    y ((l₁.mergeSort_perm descLe).mem_iff.mp hy) (tupLe_antisymm' _ _ h2 h1)

/-- C3: applying a file's non-overlapping edits in descending-start order is
independent of the input order of the edits; on `"line1\nline2\n"` the two
spec edits produce `"LINE1\nLINE2\n"` in either input order. -/
theorem c3_edit_application (content : List Char) (l₁ l₂ : List TextEdit)
    (hp : l₁.Perm l₂) (hno : NonOverlapping l₁) :
    apply_text_edits content l₁ = apply_text_edits content l₂
    ∧ apply_text_edits "line1\nline2\n".toList [editA, editB] = "LINE1\nLINE2\n".toList
    ∧ apply_text_edits "line1\nline2\n".toList [editB, editA] = "LINE1\nLINE2\n".toList := by
  refine ⟨?_, ?_, ?_⟩
  · unfold apply_text_edits
    rw [mergeSort_eq_of_perm hp (hno.imp (fun h => h.1))]
  · unfold apply_text_edits
    rw [show ([editA, editB].mergeSort descLe) = [editB, editA] from by
      simp [List.mergeSort, List.merge, descLe, posKey, tupLe, editA, editB]]
    decide
  · unfold apply_text_edits
    rw [show ([editB, editA].mergeSort descLe) = [editB, editA] from by
      simp [List.mergeSort, List.merge, descLe, posKey, tupLe, editA, editB]]
    decide

/-- Witness for C3 at the spec's two-edit instance. -/
theorem c3_witness :
    [editA, editB].Perm [editB, editA]
    ∧ NonOverlapping [editA, editB]
    ∧ apply_text_edits "line1\nline2\n".toList [editA, editB]
        = apply_text_edits "line1\nline2\n".toList [editB, editA] :=
  ⟨by decide, by unfold NonOverlapping; decide,
   (c3_edit_application "line1\nline2\n".toList [editA, editB] [editB, editA]
      (by decide) (by unfold NonOverlapping; decide)).1⟩

theorem optStrTruthy_none : optStrTruthy none = false := rfl

theorem optStrTruthy_some (s : List Char) : optStrTruthy (some s) = !s.isEmpty := rfl

/-- C4: interpreter-path resolution follows the five-step precedence order
with first match winning, ending in the always-successful `sys.executable`
fallback; and the spec's discovery scenario (`venvPath "."` + `venv "myenv"`
with `/proj/myenv/bin/python` existing and no conventional venv directory)
yields `/proj/myenv/bin/python`. -/
theorem c4_interpreter_precedence :
    (∀ (fs : Fs) (st : InterpState) (ws : List Char),
      (∀ p, st.pythonPaths (abspath fs.cwd ws) = some p →
          get_python_path_for_workspace fs st ws = Except.ok p)
      ∧ (∀ g, st.pythonPaths (abspath fs.cwd ws) = none →
          st.globalPythonPath = some g → g ≠ [] →
          get_python_path_for_workspace fs st ws = Except.ok g)
      ∧ (∀ p, st.pythonPaths (abspath fs.cwd ws) = none →
          optStrTruthy st.globalPythonPath = false →
          find_pyright_python_path fs (abspath fs.cwd ws) = Except.ok (some p) → p ≠ [] →
          get_python_path_for_workspace fs st ws = Except.ok p)
      ∧ (∀ p, st.pythonPaths (abspath fs.cwd ws) = none →
          optStrTruthy st.globalPythonPath = false →
          find_pyright_python_path fs (abspath fs.cwd ws) = Except.ok none →
          find_venv_python_path fs (abspath fs.cwd ws) = some p → p ≠ [] →
          get_python_path_for_workspace fs st ws = Except.ok p)
      ∧ (st.pythonPaths (abspath fs.cwd ws) = none →
          optStrTruthy st.globalPythonPath = false →
          find_pyright_python_path fs (abspath fs.cwd ws) = Except.ok none →
          find_venv_python_path fs (abspath fs.cwd ws) = none →
          get_python_path_for_workspace fs st ws = Except.ok fs.sysExecutable))
    ∧ get_python_path_for_workspace fsScenario st0 "/proj".toList
        = Except.ok "/proj/myenv/bin/python".toList := by
  constructor
  · intro fs st ws
    refine ⟨?_, ?_, ?_, ?_, ?_⟩
    · intro p h1
      simp [get_python_path_for_workspace, h1]
    · intro g h1 h2 h3
      have hg : g.isEmpty = false := by
        cases g with
        | nil => exact absurd rfl h3
        | cons a as => rfl
      simp [get_python_path_for_workspace, h1, h2, optStrTruthy_some, hg]
    · intro p h1 h2 h3 h4
      have hp : p.isEmpty = false := by
        cases p with
        | nil => exact absurd rfl h4
        | cons a as => rfl
      simp [get_python_path_for_workspace, h1, h2, h3, optStrTruthy_some, hp]
    · intro p h1 h2 h3 h4 h5
      have hp : p.isEmpty = false := by
        cases p with
        | nil => exact absurd rfl h5
        | cons a as => rfl
      simp [get_python_path_for_workspace, h1, h2, h3, h4, optStrTruthy_some, optStrTruthy_none, hp]
    · intro h1 h2 h3 h4
      simp [get_python_path_for_workspace, h1, h2, h3, h4, optStrTruthy_none]
  · decide

/-- Witness for C4: every earlier step empty, so the `sys.executable`
fallback is returned. -/
theorem c4_witness :
    st0.pythonPaths (abspath fsDemo.cwd "/x".toList) = none
    ∧ optStrTruthy st0.globalPythonPath = false
    ∧ find_pyright_python_path fsDemo (abspath fsDemo.cwd "/x".toList) = Except.ok none
    ∧ find_venv_python_path fsDemo (abspath fsDemo.cwd "/x".toList) = none
    ∧ get_python_path_for_workspace fsDemo st0 "/x".toList = Except.ok fsDemo.sysExecutable :=
  ⟨rfl, rfl, by decide, rfl,
   (c4_interpreter_precedence.1 fsDemo st0 "/x".toList).2.2.2.2 rfl rfl (by decide) rfl⟩

/-- C5 counterexample: a syntactically well-formed `pyrightconfig.json` of
unexpected shape (`pythonPath` holding a number) makes the discovery probe
raise an uncaught `TypeError` instead of treating the config as not found. -/
theorem c5_counterexample :
    find_pyright_python_path fsBadShape "/w".toList = Except.error PyExn.typeError := by
  decide

/-- C5 amended: the config probes never raise on an absent, unreadable, or
syntactically malformed config file — those are treated as not found and
resolution falls through (overall interpreter resolution still succeeds); only
a successfully parsed config of unexpected shape can raise. -/
theorem c5_config_probe_exceptions :
    (∀ (fs : Fs) (w : List Char),
      NotParsed (fs.jsonFiles (pathJoin w "pyrightconfig.json".toList)) →
      NotParsed (fs.tomlFiles (pathJoin w "pyproject.toml".toList)) →
      find_pyright_python_path fs w = Except.ok none)
    ∧ (∀ (fs : Fs) (st : InterpState) (ws : List Char),
      NotParsed (fs.jsonFiles (pathJoin (abspath fs.cwd ws) "pyrightconfig.json".toList)) →
      NotParsed (fs.tomlFiles (pathJoin (abspath fs.cwd ws) "pyproject.toml".toList)) →
      ∃ p, get_python_path_for_workspace fs st ws = Except.ok p) := by
  have hpart1 : ∀ (fs : Fs) (w : List Char),
      NotParsed (fs.jsonFiles (pathJoin w "pyrightconfig.json".toList)) →
      NotParsed (fs.tomlFiles (pathJoin w "pyproject.toml".toList)) →
      find_pyright_python_path fs w = Except.ok none := by
    intro fs w hj ht
    rcases hj with hj | hj | hj <;> rcases ht with ht | ht | ht <;>
      (simp only [find_pyright_python_path]; rw [hj, ht]; rfl)
  refine ⟨hpart1, ?_⟩
  intro fs st ws hj ht
  cases hpp : st.pythonPaths (abspath fs.cwd ws) with
  | some p => exact ⟨p, by simp [get_python_path_for_workspace, hpp]⟩
  | none =>
    by_cases hg : optStrTruthy st.globalPythonPath
    · exact ⟨st.globalPythonPath.getD [],
        by simp [get_python_path_for_workspace, hpp, hg]⟩
    · have hfind := hpart1 fs (abspath fs.cwd ws) hj ht
      by_cases hv : optStrTruthy (find_venv_python_path fs (abspath fs.cwd ws))
      · exact ⟨(find_venv_python_path fs (abspath fs.cwd ws)).getD [],
          by simp [get_python_path_for_workspace, hpp, hg, hfind, hv, optStrTruthy_none]⟩
      · exact ⟨fs.sysExecutable,
          by simp [get_python_path_for_workspace, hpp, hg, hfind, hv, optStrTruthy_none]⟩

/-- Witness for C5 (amended): all config files absent. -/
theorem c5_witness :
    NotParsed (fsDemo.jsonFiles (pathJoin "/w".toList "pyrightconfig.json".toList))
    ∧ NotParsed (fsDemo.tomlFiles (pathJoin "/w".toList "pyproject.toml".toList))
    ∧ find_pyright_python_path fsDemo "/w".toList = Except.ok none :=
  ⟨Or.inl rfl, Or.inl rfl,
   c5_config_probe_exceptions.1 fsDemo "/w".toList (Or.inl rfl) (Or.inl rfl)⟩

/-! ## Helper lemmas: path normalization -/

theorem splitSeg_ne_nil : ∀ p : List Char, splitSeg p ≠ [] := by
  intro p
  induction p with
  | nil => simp [splitSeg]
  | cons c rest ih =>
    by_cases hc : c = '/'
    · simp [splitSeg, hc]
    · cases hsp : splitSeg rest with
      | nil => simp [splitSeg, hc, hsp]
      | cons s ss => simp [splitSeg, hc, hsp]

theorem mem_splitSeg_no_slash : ∀ (p s : List Char), s ∈ splitSeg p → '/' ∉ s := by
  intro p
  induction p with
  | nil =>
    intro s hs
    simp [splitSeg] at hs
    simp [hs]
  | cons c rest ih =>
    intro s hs
    by_cases hc : c = '/'
    · simp only [splitSeg, if_pos hc] at hs
      rcases List.mem_cons.mp hs with rfl | hs'
      · simp
      · exact ih s hs'
    · simp only [splitSeg, if_neg hc] at hs
      cases hsp : splitSeg rest with
      | nil => exact absurd hsp (splitSeg_ne_nil rest)
      | cons s0 ss =>
        rw [hsp] at hs
        rcases List.mem_cons.mp hs with rfl | hs'
        · intro hmem
          rcases List.mem_cons.mp hmem with h | h
          · exact hc h.symm
          · exact ih s0 (hsp ▸ List.mem_cons_self s0 ss) h
        · exact ih s (hsp ▸ List.mem_cons_of_mem s0 hs')

theorem normComps_skip_empties (b : Bool) : ∀ (i : Nat) (acc l : List (List Char)),
    normComps b acc (List.replicate i [] ++ l) = normComps b acc l := by
  intro i
  induction i with
  | zero => intro acc l; rfl
  | succ n ih =>
    intro acc l
    rw [List.replicate_succ, List.cons_append]
    show normComps b acc ([] :: (List.replicate n [] ++ l)) = _
    rw [show normComps b acc ([] :: (List.replicate n [] ++ l))
        = normComps b acc (List.replicate n [] ++ l) from by simp [normComps]]
    exact ih acc l

theorem normComps_id : ∀ (l acc : List (List Char)), (∀ s ∈ l, GoodSeg s) →
    normComps true acc l = acc.reverse ++ l := by
  intro l
  induction l with
  | nil => intro acc _; simp [normComps]
  | cons comp rest ih =>
    intro acc h
    obtain ⟨h1, h2, h3, _⟩ := h comp (List.mem_cons_self comp rest)
    have hcond : ¬ (comp = [] ∨ comp = ['.']) := by
      intro hor
      rcases hor with hor | hor
      · exact h1 hor
      · exact h2 hor
    simp only [normComps, if_neg hcond, if_pos (Or.inl h3)]
    rw [ih (comp :: acc) (fun s hs => h s (List.mem_cons_of_mem comp hs))]
    simp

theorem normComps_good : ∀ (l acc : List (List Char)),
    (∀ s ∈ acc, GoodSeg s) → (∀ s ∈ l, '/' ∉ s) →
    ∀ s ∈ normComps true acc l, GoodSeg s := by
  intro l
  induction l with
  | nil =>
    intro acc hacc _ s hs
    rw [normComps] at hs
    exact hacc s (List.mem_reverse.mp hs)
  | cons comp rest ih =>
    intro acc hacc hl s hs
    have hl' : ∀ x ∈ rest, '/' ∉ x := fun x hx => hl x (List.mem_cons_of_mem comp hx)
    by_cases h1 : comp = [] ∨ comp = ['.']
    · rw [show normComps true acc (comp :: rest) = normComps true acc rest from by
        simp only [normComps, if_pos h1]] at hs
      exact ih acc hacc hl' s hs
    · by_cases h3 : comp = ['.', '.']
      · cases acc with
        | nil =>
          simp only [normComps, if_neg h1] at hs
          split at hs
          next hcase =>
            rcases hcase with hcase | hcase | hcase
            · exact (hcase h3).elim
            · simp at hcase
            · simp at hcase
          next => exact ih [] (by simp) hl' s hs
        | cons a as =>
          simp only [normComps, if_neg h1] at hs
          split at hs
          next hcase =>
            rcases hcase with hcase | hcase | hcase
            · exact (hcase h3).elim
            · simp at hcase
            · simp only [List.head?_cons, Option.some.injEq] at hcase
              exact ((hacc a (List.mem_cons_self a as)).2.2.1 hcase).elim
          next => exact ih as (fun x hx => hacc x (List.mem_cons_of_mem a hx)) hl' s hs
      · rw [show normComps true acc (comp :: rest)
            = normComps true (comp :: acc) rest from by
          simp only [normComps, if_neg h1, if_pos (Or.inl h3)]] at hs
        have hgc : GoodSeg comp := by
          refine ⟨?_, ?_, h3, hl comp (List.mem_cons_self comp rest)⟩
          · intro he; exact h1 (Or.inl he)
          · intro he; exact h1 (Or.inr he)
        refine ih (comp :: acc) ?_ hl' s hs
        intro x hx
        rcases List.mem_cons.mp hx with rfl | hx'
        · exact hgc
        · exact hacc x hx'

theorem splitSeg_append_slash : ∀ (s t : List Char), '/' ∉ s →
    splitSeg (s ++ '/' :: t) = s :: splitSeg t := by
  intro s
  induction s with
  | nil => intro t _; simp [splitSeg]
  | cons c cs ih =>
    intro t h
    have hc : ¬ c = '/' := by
      intro he
      exact h (by simp [he])
    have hcs : '/' ∉ cs := fun hm => h (List.mem_cons_of_mem c hm)
    simp only [List.cons_append, splitSeg, if_neg hc, List.append_eq]
    rw [ih t hcs]

theorem splitSeg_no_slash : ∀ s : List Char, '/' ∉ s → splitSeg s = [s] := by
  intro s
  induction s with
  | nil => intro _; rfl
  | cons c cs ih =>
    intro h
    have hc : ¬ c = '/' := by
      intro he
      exact h (by simp [he])
    have hcs : '/' ∉ cs := fun hm => h (List.mem_cons_of_mem c hm)
    simp only [splitSeg, if_neg hc]
    rw [ih hcs]

theorem splitSeg_joinSegs : ∀ (ss : List (List Char)) (s : List Char),
    (∀ x ∈ s :: ss, '/' ∉ x) → splitSeg (joinSegs (s :: ss)) = s :: ss := by
  intro ss
  induction ss with
  | nil =>
    intro s h
    show splitSeg s = [s]
    exact splitSeg_no_slash s (h s (List.mem_cons_self s []))
  | cons s2 rest ih =>
    intro s h
    show splitSeg (s ++ '/' :: joinSegs (s2 :: rest)) = _
    rw [splitSeg_append_slash s _ (h s (List.mem_cons_self s (s2 :: rest)))]
    rw [ih s2 (fun x hx => h x (List.mem_cons_of_mem s hx))]

theorem splitSeg_replicate_slash : ∀ (i : Nat) (q : List Char),
    splitSeg (List.replicate i '/' ++ q) = List.replicate i [] ++ splitSeg q := by
  intro i
  induction i with
  | zero => intro q; rfl
  | succ n ih =>
    intro q
    rw [List.replicate_succ, List.replicate_succ, List.cons_append, List.cons_append]
    show splitSeg ('/' :: (List.replicate n '/' ++ q)) = _
    rw [show splitSeg ('/' :: (List.replicate n '/' ++ q))
        = [] :: splitSeg (List.replicate n '/' ++ q) from by simp [splitSeg]]
    rw [ih q]

theorem initSlashes_one_of (t : List Char)
    (h : t = [] ∨ ∃ c cs, t = c :: cs ∧ c ≠ '/') : initSlashes ('/' :: t) = 1 := by
  rcases h with rfl | ⟨c, cs, rfl, hc⟩
  · rfl
  · have hbeq : (c == '/') = false := by simp [hc]
    simp only [initSlashes, List.isPrefixOf, hbeq]
    simp [hc]
    exact fun h => (hc h.symm).elim

theorem initSlashes_two_of (t : List Char)
    (h : t = [] ∨ ∃ c cs, t = c :: cs ∧ c ≠ '/') : initSlashes ('/' :: '/' :: t) = 2 := by
  rcases h with rfl | ⟨c, cs, rfl, hc⟩
  · rfl
  · have hbeq : (c == '/') = false := by simp [hc]
    simp only [initSlashes, List.isPrefixOf, hbeq]
    simp [hc]
    exact fun h => (hc h.symm).elim

theorem joinSegs_head_of_cons (c : Char) (cs : List Char) (ss : List (List Char)) :
    ∃ t, joinSegs ((c :: cs) :: ss) = c :: t := by
  cases ss with
  | nil => exact ⟨cs, rfl⟩
  | cons s2 rest => exact ⟨cs ++ '/' :: joinSegs (s2 :: rest), rfl⟩

theorem initSlashes_pos (p : List Char) (h : isAbsolute p = true) :
    initSlashes p = 1 ∨ initSlashes p = 2 := by
  have hpre : ['/'].isPrefixOf p = true := by
    cases p with
    | nil => simp [isAbsolute] at h
    | cons c cs =>
      have hc : c = '/' := by simpa [isAbsolute] using h
      simp [List.isPrefixOf, hc]
  unfold initSlashes
  by_cases h2 : ['/', '/'].isPrefixOf p ∧ ¬ ['/', '/', '/'].isPrefixOf p
  · rw [if_pos h2]
    right
    rfl
  · rw [if_neg h2, if_pos hpre]
    left
    rfl

theorem posixNormpath_abs_shape (p : List Char) (h : isAbsolute p = true) :
    posixNormpath p
      = List.replicate (initSlashes p) '/' ++ joinSegs (normComps true [] (splitSeg p)) := by
  have hp : p ≠ [] := by
    cases p with
    | nil => simp [isAbsolute] at h
    | cons c cs => simp
  have hi := initSlashes_pos p h
  have hb : (initSlashes p != 0) = true := by rcases hi with hi | hi <;> simp [hi]
  have hres : List.replicate (initSlashes p) '/'
      ++ joinSegs (normComps true [] (splitSeg p)) ≠ [] := by
    rcases hi with hi | hi <;> simp [hi]
  unfold posixNormpath
  rw [if_neg hp, hb]
  unfold renderNorm
  rw [if_neg hres]

theorem isAbsolute_append (a b : List Char) (ha : isAbsolute a = true) :
    isAbsolute (a ++ b) = true := by
  cases a with
  | nil => simp [isAbsolute] at ha
  | cons c cs => simpa [isAbsolute] using ha

theorem isAbsolute_posixNormpath (p : List Char) (h : isAbsolute p = true) :
    isAbsolute (posixNormpath p) = true := by
  rw [posixNormpath_abs_shape p h]
  rcases initSlashes_pos p h with hi | hi <;> rw [hi] <;> rfl

theorem posixNormpath_render_fixed (i : Nat) (nc : List (List Char))
    (hi : i = 1 ∨ i = 2) (hgood : ∀ s ∈ nc, GoodSeg s) :
    posixNormpath (List.replicate i '/' ++ joinSegs nc)
      = List.replicate i '/' ++ joinSegs nc := by
  have hjoin : joinSegs nc = [] ∨ ∃ c t, joinSegs nc = c :: t ∧ c ≠ '/' := by
    cases hcase : nc with
    | nil => left; rfl
    | cons s ss =>
      obtain ⟨hs1, _, _, hs4⟩ := hgood s (hcase ▸ List.mem_cons_self s ss)
      obtain ⟨c, cs, rfl⟩ := List.exists_cons_of_ne_nil hs1
      obtain ⟨t, ht⟩ := joinSegs_head_of_cons c cs ss
      right
      refine ⟨c, t, ht, ?_⟩
      intro he
      apply hs4
      rw [← he]
      exact List.mem_cons_self c cs
  have hinit : initSlashes (List.replicate i '/' ++ joinSegs nc) = i := by
    rcases hi with rfl | rfl
    · exact initSlashes_one_of (joinSegs nc) hjoin
    · exact initSlashes_two_of (joinSegs nc) hjoin
  have hq_ne : List.replicate i '/' ++ joinSegs nc ≠ [] := by
    rcases hi with rfl | rfl <;> simp
  have hcomps : normComps true [] (splitSeg (List.replicate i '/' ++ joinSegs nc)) = nc := by
    rw [splitSeg_replicate_slash i (joinSegs nc), normComps_skip_empties true i []]
    cases nc with
    | nil => rfl
    | cons s ss =>
      rw [splitSeg_joinSegs ss s (fun x hx => (hgood x hx).2.2.2)]
      rw [normComps_id (s :: ss) [] hgood]
      rfl
  have hb : (i != 0) = true := by rcases hi with rfl | rfl <;> rfl
  unfold posixNormpath
  rw [if_neg hq_ne, hinit, hb, hcomps]
  unfold renderNorm
  rw [if_neg hq_ne]

theorem posixNormpath_idem_abs (p : List Char) (h : isAbsolute p = true) :
    posixNormpath (posixNormpath p) = posixNormpath p := by
  have hgood : ∀ s ∈ normComps true [] (splitSeg p), GoodSeg s :=
    normComps_good (splitSeg p) [] (by simp) (mem_splitSeg_no_slash p)
  rw [posixNormpath_abs_shape p h]
  exact posixNormpath_render_fixed (initSlashes p) (normComps true [] (splitSeg p))
    (initSlashes_pos p h) hgood

theorem isAbsolute_pjoinOS (a b : List Char) (ha : isAbsolute a = true) :
    isAbsolute (pjoinOS a b) = true := by
  unfold pjoinOS
  by_cases hb : isAbsolute b = true
  · rw [if_pos hb]
    exact hb
  · rw [if_neg hb]
    by_cases hc : a = [] ∨ a.getLast? = some '/'
    · rw [if_pos hc]
      exact isAbsolute_append a b ha
    · rw [if_neg hc]
      exact isAbsolute_append a ('/' :: b) ha

theorem isAbsolute_abspath (cwd q : List Char) (hc : isAbsolute cwd = true) :
    isAbsolute (abspath cwd q) = true := by
  unfold abspath
  by_cases hq : isAbsolute q = true
  · rw [if_pos hq]
    exact isAbsolute_posixNormpath q hq
  · rw [if_neg hq]
    exact isAbsolute_posixNormpath _ (isAbsolute_pjoinOS cwd q hc)

theorem abspath_norm_fixed (cwd q : List Char) (hc : isAbsolute cwd = true) :
    posixNormpath (abspath cwd q) = abspath cwd q := by
  unfold abspath
  by_cases hq : isAbsolute q = true
  · rw [if_pos hq]
    exact posixNormpath_idem_abs q hq
  · rw [if_neg hq]
    exact posixNormpath_idem_abs _ (isAbsolute_pjoinOS cwd q hc)

theorem abspath_of_abs (cwd q : List Char) (hq : isAbsolute q = true) :
    abspath cwd q = posixNormpath q := by
  unfold abspath
  rw [if_pos hq]

/-- C9: `resolve_file_path` returns exactly one of its two components — a
resolved path with no error, or no path with an error — and with no active
workspace it always returns the success form: a normalized absolute path,
joining relative inputs onto the working directory. -/
theorem c9_resolve_path_invariants :
    (∀ (fs : Fs) (aw : Option (List Char)) (fp : List Char),
      ((resolve_file_path fs aw fp).1.isSome ∧ (resolve_file_path fs aw fp).2 = none)
      ∨ ((resolve_file_path fs aw fp).1 = none ∧ (resolve_file_path fs aw fp).2.isSome))
    ∧ (∀ (fs : Fs) (fp : List Char), isAbsolute fs.cwd = true →
        (resolve_file_path fs none fp).2 = none
        ∧ ∃ p, (resolve_file_path fs none fp).1 = some p
            ∧ isAbsolute p = true
            ∧ posixNormpath p = p
            ∧ (isAbsolute fp = false → p = abspath fs.cwd fp)) := by
  constructor
  · intro fs aw fp
    simp only [resolve_file_path]
    repeat' split
    all_goals first
      | exact Or.inr ⟨rfl, rfl⟩
      | exact Or.inl ⟨rfl, rfl⟩
  · intro fs fp hcwd
    have hres : resolve_file_path fs none fp
        = (some (abspath fs.cwd
            (if isAbsolute fp = true then pathlibStr fp else abspath fs.cwd fp)), none) := by
      by_cases hfp : isAbsolute fp = true
      · simp [resolve_file_path, hfp, optStrTruthy]
      · simp [resolve_file_path, hfp, optStrTruthy]
    refine ⟨by rw [hres], ?_⟩
    by_cases hfp : isAbsolute fp = true
    · refine ⟨abspath fs.cwd (pathlibStr fp), ?_, ?_, ?_, ?_⟩
      · rw [hres, if_pos hfp]
      · exact isAbsolute_abspath fs.cwd (pathlibStr fp) hcwd
      · exact abspath_norm_fixed fs.cwd (pathlibStr fp) hcwd
      · intro hf
        rw [hfp] at hf
        cases hf
    · refine ⟨abspath fs.cwd fp, ?_, ?_, ?_, fun _ => rfl⟩
      · rw [hres, if_neg hfp]
        have h1 : isAbsolute (abspath fs.cwd fp) = true := isAbsolute_abspath fs.cwd fp hcwd
        rw [abspath_of_abs fs.cwd (abspath fs.cwd fp) h1]
        rw [abspath_norm_fixed fs.cwd fp hcwd]
      · exact isAbsolute_abspath fs.cwd fp hcwd
      · exact abspath_norm_fixed fs.cwd fp hcwd

/-- Witness for C9 with an absolute working directory and a relative input. -/
theorem c9_witness :
    isAbsolute fsDemo.cwd = true
    ∧ (resolve_file_path fsDemo none "sub/a.py".toList).2 = none
    ∧ ∃ p, (resolve_file_path fsDemo none "sub/a.py".toList).1 = some p
        ∧ isAbsolute p = true
        ∧ posixNormpath p = p
        ∧ (isAbsolute "sub/a.py".toList = false → p = abspath fsDemo.cwd "sub/a.py".toList) :=
  ⟨by decide,
   (c9_resolve_path_invariants.2 fsDemo "sub/a.py".toList (by decide)).1,
   (c9_resolve_path_invariants.2 fsDemo "sub/a.py".toList (by decide)).2⟩
